import Mathlib

/-!
Shallow embedding of the document persistence and duplicate-detection core
of src/modules/database.py.

Modelling conventions:
- The Supabase client is an `Option (List DocRow)`: `none` models a store
  that is unavailable (missing configuration or failed client construction),
  `some rows` models an available store holding the table `documents`.
- Every operation additionally takes a `remoteFail : Bool` flag: `true`
  models the backend call raising an exception on an otherwise-available
  connection, which the Python code catches in its `try`/`except` blocks.
- Stateful operations return the value the Python function returns paired
  with the resulting store contents.
- Python floats are modelled as exact rationals; `datetime.now().isoformat()`
  is modelled as an explicit `now : String` argument; columns are modelled
  as non-null, matching the rows that `save_document` itself writes.
- Python string operations are re-implemented structurally on `List Char`
  so that concrete instances evaluate by kernel reduction: `str.split()`
  with no arguments, `str.lower()` restricted to ASCII letters, slicing,
  and `pathlib.Path(...).suffix`.
- `json.dumps`/`json.loads` (standard library collaborators) are modelled
  on flat string-to-string maps, with escaping of quote and backslash and
  a verified parser of the serializer's output format.
-/

/-- Characters treated as whitespace by Python's `str.split()` with no
arguments (the Unicode whitespace set used by `str.isspace`). -/
def isPyWhitespace (c : Char) : Bool :=
  c = ' ' || ('\t' ≤ c && c ≤ '\x0d') || c = '\x1c' || c = '\x1d' ||
  c = '\x1e' || c = '\x1f' || c = '\x85' || c = '\xa0' || c = ' ' ||
  (0x2000 ≤ c.toNat && c.toNat ≤ 0x200A) || c = ' ' || c = ' ' ||
  c = ' ' || c = ' ' || c = '　'

/-- Accumulator-based splitter: splits on runs of whitespace, drops empty
pieces, exactly like Python's `str.split()` with no arguments. -/
def splitWsAux : List Char → List Char → List String
  | [], acc => if acc.isEmpty then [] else [String.mk acc.reverse]
  | c :: cs, acc =>
    if isPyWhitespace c then
      if acc.isEmpty then splitWsAux cs []
      else String.mk acc.reverse :: splitWsAux cs []
    else splitWsAux cs (c :: acc)

/-- Python `s.split()` (whitespace-delimited tokens, no empty tokens). -/
def pySplit (s : String) : List String := splitWsAux s.data []

/-- Python `s.lower()`, restricted to ASCII case folding. -/
def lowerStr (s : String) : String := String.mk (s.data.map Char.toLower)

/-- Splits a character list at slashes (for the basename of a path). -/
def splitSlash : List Char → List Char → List (List Char)
  | [], acc => [acc.reverse]
  | '/' :: cs, acc => acc.reverse :: splitSlash cs []
  | c :: cs, acc => splitSlash cs (c :: acc)

/-- Index of the last dot in a character list, if any. -/
def lastDotIdxAux : List Char → Nat → Option Nat → Option Nat
  | [], _, best => best
  | c :: cs, i, best =>
    lastDotIdxAux cs (i + 1) (if c = '.' then some i else best)

/-- Python `pathlib.Path(filename).suffix`: the extension of the last
nonempty path component, including the dot, and empty when the dot is the
first or last character of that component. -/
def pathSuffix (filename : String) : String :=
  let name := ((splitSlash filename.data []).filter (fun p => !p.isEmpty)).getLastD []
  match lastDotIdxAux name 0 none with
  | some i => if 0 < i && i < name.length - 1 then String.mk (name.drop i) else ""
  | none => ""

/-- Python truthiness for an optional string argument: `a or b` yields `b`
when `a` is `None` or the empty string. -/
def pyStrOr (a : Option String) (b : String) : String :=
  match a with
  | none => b
  | some s => if s = "" then b else s

/-- Flat string-to-string map, modelling the Python dicts passed as
`summary` and `metadata`. -/
abbrev StrDict := List (String × String)

/-- JSON string escaping of one character (quote and backslash; control
and non-ASCII characters are outside the modelled domain). -/
def escChar (c : Char) : List Char :=
  if c = '"' || c = '\\' then ['\\', c] else [c]

/-- JSON string escaping of a character list. -/
def escChars (s : List Char) : List Char := s.flatMap escChar

/-- Serialized form of one key-value pair, as `json.dumps` renders it. -/
def dumpPairChars (p : String × String) : List Char :=
  '"' :: (escChars p.1.data ++
    ('"' :: ':' :: ' ' :: '"' :: (escChars p.2.data ++ ['"'])))

/-- Serialized body of a dict: pairs joined by comma-space. -/
def dumpBodyChars : StrDict → List Char
  | [] => []
  | [p] => dumpPairChars p
  | p :: ps => dumpPairChars p ++ ',' :: ' ' :: dumpBodyChars ps

/-- Python `json.dumps` on a flat string dict (default separators). -/
def jsonDumps (d : StrDict) : String :=
  String.mk ('{' :: (dumpBodyChars d ++ ['}']))

/-- Parses a JSON string literal body up to its closing quote, undoing the
escaping; the opening quote has already been consumed. -/
def parseLitAux : List Char → Option (List Char × List Char)
  | [] => none
  | c :: cs =>
    if c = '"' then some ([], cs)
    else if c = '\\' then
      match cs with
      | [] => none
      | d :: cs2 =>
        match parseLitAux cs2 with
        | some (s, r) => some (d :: s, r)
        | none => none
    else
      match parseLitAux cs with
      | some (s, r) => some (c :: s, r)
      | none => none

/-- Parses one `"key": "value"` pair in the serializer's output format. -/
def parsePairItem (cs : List Char) : Option ((String × String) × List Char) :=
  match cs with
  | '"' :: cs1 =>
    match parseLitAux cs1 with
    | some (k, r1) =>
      match r1 with
      | ':' :: ' ' :: '"' :: r2 =>
        match parseLitAux r2 with
        | some (v, r3) => some ((String.mk k, String.mk v), r3)
        | none => none
      | _ => none
    | none => none
  | _ => none

/-- Parses a nonempty comma-space separated sequence of pairs; the fuel is
an upper bound on the number of pairs (the caller passes the input length,
which always suffices since each pair consumes at least one character). -/
def parsePairsAux : Nat → List Char → Option (StrDict × List Char)
  | 0, _ => none
  | fuel + 1, cs =>
    match parsePairItem cs with
    | none => none
    | some (p, r) =>
      match r with
      | ',' :: ' ' :: r2 =>
        match parsePairsAux fuel r2 with
        | some (ps, r3) => some (p :: ps, r3)
        | none => none
      | _ => some ([p], r)

/-- Python `json.loads`, restricted to the canonical output format of
`jsonDumps` on flat string dicts; `none` models `json.loads` raising. -/
def jsonLoadsDict (s : String) : Option StrDict :=
  match s.data with
  | '{' :: rest =>
    if rest = ['}'] then some []
    else
      match parsePairsAux rest.length rest with
      | some (ps, r) => if r = ['}'] then some ps else none
      | none => none
  | _ => none

/-- Rounding of a rational to the nearest integer, ties to even, as
Python's builtin `round` does: `n` is the floor (Euclidean division by the
positive denominator) and `r` the nonnegative remainder, so the fractional
part is `r / den` and the tie case is `2 * r = den`. -/
def roundHalfEven (q : ℚ) : ℤ :=
  if 2 * q.num.emod (q.den : ℤ) < (q.den : ℤ) then q.num.ediv (q.den : ℤ)
  else if (q.den : ℤ) < 2 * q.num.emod (q.den : ℤ) then q.num.ediv (q.den : ℤ) + 1
  else if Even (q.num.ediv (q.den : ℤ)) then q.num.ediv (q.den : ℤ)
  else q.num.ediv (q.den : ℤ) + 1

/-- Python `round(q * 100, 1)`: the similarity as a percentage rounded to
one decimal place, i.e. the nearest multiple of one tenth (ties to even).
`q * 1000` is computed as the fraction `q.num * 1000 / q.den` and the
result divided by ten, written with `Rat.divInt` (exact integer-fraction
division) so that concrete instances evaluate by kernel reduction. -/
def roundPct (q : ℚ) : ℚ :=
  Rat.divInt (roundHalfEven (Rat.divInt (q.num * 1000) (q.den : ℤ))) 10

/-- Stable insertion of `a` into a list sorted descending by `le` (`le x y`
reads: the key of `x` is at most the key of `y`): `a` is placed before the
first element whose key is at most the key of `a`, so that among equal keys
earlier elements stay first, as Python's stable `list.sort` does. -/
def insDescBy (le : α → α → Bool) (a : α) : List α → List α
  | [] => [a]
  | b :: bs => if le b a then a :: b :: bs else b :: insDescBy le a bs

/-- Stable descending insertion sort, modelling Python's
`list.sort(key=..., reverse=True)` and the backend's `ORDER BY ... DESC`. -/
def sortDescBy (le : α → α → Bool) : List α → List α
  | [] => []
  | a :: as => insDescBy le a (sortDescBy le as)

/-- One row of the `documents` table, with the columns written by
`save_document`. -/
structure DocRow where
  id : String
  filename : String
  file_path : String
  upload_date : String
  file_type : String
  file_size : Int
  ocr_text : String
  summary_json : String
  metadata_json : String
deriving DecidableEq, Repr

/-- Insert-or-replace keyed by the primary key `id`, as the backend's
upsert behaves: replaces the matching row, or appends when none matches. -/
def upsertRow (rows : List DocRow) (r : DocRow) : List DocRow :=
  if rows.any (fun x => x.id == r.id) then
    rows.map (fun x => if x.id == r.id then r else x)
  else rows ++ [r]

/-- The `data` dict that `save_document` builds from its arguments: the
upload date is stamped with the current time, the file type is derived
from the filename's extension (lower-cased) when the argument is falsy,
and absent summary/metadata maps are serialized as empty dicts. -/
def savedRow (now doc_id filename file_path ocr_text : String)
    (file_type : Option String) (file_size : Int)
    (summary metadata : Option StrDict) : DocRow :=
  { id := doc_id
    filename := filename
    file_path := file_path
    upload_date := now
    file_type := pyStrOr file_type (lowerStr (pathSuffix filename))
    file_size := file_size
    ocr_text := ocr_text
    summary_json := jsonDumps (summary.getD [])
    metadata_json := jsonDumps (metadata.getD []) }

/-- Translation of `save_document`: builds the row from the arguments and
upserts it; returns `False` without raising when the store is unavailable
or the backend call fails. -/
def save_document : Option (List DocRow) → Bool → String → String → String →
    String → String → Option String → Int → Option StrDict → Option StrDict →
    Bool × Option (List DocRow)
  | none, _, _, _, _, _, _, _, _, _, _ => (false, none)
  | some rows, remoteFail, now, doc_id, filename, file_path, ocr_text,
      file_type, file_size, summary, metadata =>
    if remoteFail then (false, some rows)
    else
      (true, some (upsertRow rows
        (savedRow now doc_id filename file_path ocr_text file_type file_size
          summary metadata)))

/-- The preview record built by `get_all_documents_from_db` for each row. -/
structure DocPreview where
  doc_id : String
  filename : String
  file_path : String
  upload_date : String
  file_type : String
  file_size : Int
  text_preview : String
  word_count : Nat
  title : String
deriving DecidableEq, Repr

/-- The per-row projection of `get_all_documents_from_db`: truncated text
preview, whitespace-token word count, and filename-or-id title. -/
def previewOfRow (row : DocRow) : DocPreview :=
  { doc_id := row.id
    filename := row.filename
    file_path := row.file_path
    upload_date := row.upload_date
    file_type := row.file_type
    file_size := row.file_size
    text_preview :=
      if row.ocr_text ≠ "" ∧ 300 < row.ocr_text.data.length then
        String.mk (row.ocr_text.data.take 300) ++ "..."
      else row.ocr_text
    word_count := if row.ocr_text = "" then 0 else (pySplit row.ocr_text).length
    title := if row.filename = "" then row.id else row.filename }

/-- Translation of `get_all_documents_from_db`: all rows ordered by upload
date, most recent first, projected to previews; empty on an unavailable
store or a failing backend call. -/
def get_all_documents_from_db : Option (List DocRow) → Bool → List DocPreview
  | none, _ => []
  | some rows, remoteFail =>
    if remoteFail then []
    else
      (sortDescBy (fun a b => decide (a.upload_date ≤ b.upload_date)) rows).map
        previewOfRow

/-- The full record built by `get_document_by_id`. -/
structure FullDoc where
  doc_id : String
  filename : String
  file_path : String
  upload_date : String
  file_type : String
  file_size : Int
  full_text : String
  word_count : Nat
  title : String
  summary : StrDict
  metadata : StrDict
deriving DecidableEq, Repr

/-- Translation of `get_document_by_id`: the first row matching the
identifier, with summary and metadata deserialized (a falsy stored blob
yields an empty dict; a failing parse raises, which the except block turns
into `None`); `None` when no row matches, the store is unavailable, or the
backend call fails. -/
def get_document_by_id : Option (List DocRow) → Bool → String → Option FullDoc
  | none, _, _ => none
  | some rows, remoteFail, doc_id =>
    if remoteFail then none
    else
      match rows.find? (fun r => r.id == doc_id) with
      | none => none
      | some row =>
        match (if row.summary_json = "" then some [] else jsonLoadsDict row.summary_json),
              (if row.metadata_json = "" then some [] else jsonLoadsDict row.metadata_json) with
        | some s, some m =>
          some { doc_id := row.id
                 filename := row.filename
                 file_path := row.file_path
                 upload_date := row.upload_date
                 file_type := row.file_type
                 file_size := row.file_size
                 full_text := row.ocr_text
                 word_count := if row.ocr_text = "" then 0 else (pySplit row.ocr_text).length
                 title := if row.filename = "" then row.id else row.filename
                 summary := s
                 metadata := m }
        | _, _ => none

/-- Translation of `delete_document`: removes every row with the given
identifier and returns `True` (also when nothing matched); `False` only
when the store is unavailable or the backend call fails. -/
def delete_document : Option (List DocRow) → Bool → String →
    Bool × Option (List DocRow)
  | none, _, _ => (false, none)
  | some rows, remoteFail, doc_id =>
    if remoteFail then (false, some rows)
    else (true, some (rows.filter (fun r => r.id != doc_id)))

/-- One match reported by `find_similar_documents`. -/
structure SimMatch where
  doc_id : String
  filename : String
  similarity : ℚ
deriving DecidableEq, Repr

/-- The distinct case-folded whitespace tokens of a text, in order of first
occurrence: the list form of Python's `set(text.lower().split())`. -/
def distinctWords (s : String) : List String := (pySplit (lowerStr s)).dedup

/-- The loop body of `find_similar_documents` for one stored row: skips
rows with falsy text or fewer than 10 distinct tokens, computes the Jaccard
similarity of the token sets, and keeps the row when it reaches the
threshold, reporting the similarity as a rounded percentage. -/
def scoreRow (nw : List String) (threshold : ℚ) (row : DocRow) : Option SimMatch :=
  if row.ocr_text = "" then none
  else if (distinctWords row.ocr_text).length < 10 then none
  else if 0 < ((nw ++ distinctWords row.ocr_text).dedup).length then
    if threshold ≤
        Rat.divInt ((nw.filter (fun w => (distinctWords row.ocr_text).contains w)).length : ℤ)
          (((nw ++ distinctWords row.ocr_text).dedup).length : ℤ) then
      some { doc_id := row.id
             filename := row.filename
             similarity := roundPct
               (Rat.divInt ((nw.filter (fun w => (distinctWords row.ocr_text).contains w)).length : ℤ)
                 (((nw ++ distinctWords row.ocr_text).dedup).length : ℤ)) }
    else none
  else none

/-- Translation of `find_similar_documents`: empty on an unavailable store,
falsy candidate text, a failing backend call, an empty corpus, or a
candidate with fewer than 10 distinct tokens; otherwise scores every row,
sorts the kept matches by reported similarity descending (stable), and
returns the first 5. -/
def find_similar_documents : Option (List DocRow) → Bool → String → ℚ →
    List SimMatch
  | none, _, _, _ => []
  | some rows, remoteFail, new_text, threshold =>
    if new_text = "" then []
    else if remoteFail then []
    else if rows.isEmpty then []
    else if (distinctWords new_text).length < 10 then []
    else
      (sortDescBy (fun a b => decide (a.similarity ≤ b.similarity))
        (rows.filterMap (scoreRow (distinctWords new_text) threshold))).take 5

/-- The set of distinct case-folded whitespace tokens of a text, as a
finite set (the specification-level view of `set(text.lower().split())`). -/
def tokenSet (s : String) : Finset String := (pySplit (lowerStr s)).toFinset

/-- Jaccard similarity of the token sets of two texts: intersection size
over union size, as an exact rational (`Rat.divInt a b` is the fraction
`a / b`; the theorem `jaccardSim_eq_div` below states this). -/
def jaccardSim (s t : String) : ℚ :=
  Rat.divInt ((tokenSet s ∩ tokenSet t).card : ℤ) ((tokenSet s ∪ tokenSet t).card : ℤ)

/-- A stored row qualifies as a match for candidate `t` at `threshold`:
nonempty text, at least 10 distinct tokens, and Jaccard similarity at least
the threshold. -/
def qualifies (t : String) (threshold : ℚ) (r : DocRow) : Bool :=
  (!(r.ocr_text == "")) && decide (10 ≤ (tokenSet r.ocr_text).card) &&
    decide (threshold ≤ jaccardSim t r.ocr_text)

/-- The primary-key invariant of the `documents` table: identifiers are
pairwise distinct. -/
def uniqueIds (rows : List DocRow) : Prop := (rows.map DocRow.id).Nodup

/-! ### Basic bridging lemmas -/

/-- A string is its character list rebuilt. -/
theorem stringMk_data (s : String) : String.mk s.data = s := by
  cases s
  rfl

/-- Deduplicating a list does not change its finite set of elements. -/
theorem dedup_toFinset_eq {α : Type} [DecidableEq α] (l : List α) :
    l.dedup.toFinset = l.toFinset := by
  ext a
  simp [List.mem_dedup]

/-- The number of distinct tokens computed by the code equals the
cardinality of the token set. -/
theorem distinctWords_length (s : String) :
    (distinctWords s).length = (tokenSet s).card := by
  simp [distinctWords, tokenSet, List.card_toFinset]

/-- The intersection count computed by the code equals the cardinality of
the intersection of the token sets. -/
theorem interFilter_length (s t : String) :
    ((distinctWords s).filter (fun w => (distinctWords t).contains w)).length
      = (tokenSet s ∩ tokenSet t).card := by
  have nd : ((distinctWords s).filter (fun w => (distinctWords t).contains w)).Nodup :=
    (List.nodup_dedup _).filter _
  rw [← List.toFinset_card_of_nodup nd]
  congr 1
  ext a
  simp [distinctWords, tokenSet, List.mem_filter, List.mem_dedup]

/-- The union count computed by the code equals the cardinality of the
union of the token sets. -/
theorem unionDedup_length (s t : String) :
    ((distinctWords s ++ distinctWords t).dedup).length
      = (tokenSet s ∪ tokenSet t).card := by
  rw [← List.card_toFinset]
  congr 1
  ext a
  simp [distinctWords, tokenSet, List.mem_dedup]

/-- The Jaccard similarity is the quotient of intersection size by union
size, in the division of the rational field. -/
theorem jaccardSim_eq_div (s t : String) :
    jaccardSim s t
      = ((tokenSet s ∩ tokenSet t).card : ℚ) / ((tokenSet s ∪ tokenSet t).card : ℚ) := by
  rw [jaccardSim, Rat.divInt_eq_div]
  push_cast
  rfl

/-- The integer fraction fed to the rounding step of `roundPct` is the
percentage times ten. -/
theorem roundPct_arg_eq (q : ℚ) :
    Rat.divInt (q.num * 1000) (q.den : ℤ) = q * 1000 := by
  rw [Rat.divInt_eq_div]
  push_cast
  conv_rhs => rw [← Rat.num_div_den q]
  ring

/-! ### JSON serializer-parser roundtrip -/

/-- Parsing an escaped string body followed by a closing quote recovers
the original characters and leaves the rest untouched. -/
theorem parseLitAux_escape (s r : List Char) :
    parseLitAux (escChars s ++ '"' :: r) = some (s, r) := by
  induction s with
  | nil =>
    have he : escChars [] ++ '"' :: r = '"' :: r := by
      simp [escChars]
    rw [he, parseLitAux.eq_def]
    simp
  | cons c cs ih =>
    by_cases h1 : c = '"'
    · subst h1
      have he : escChars ('"' :: cs) ++ '"' :: r
          = '\\' :: '"' :: (escChars cs ++ '"' :: r) := by
        simp [escChars, escChar]
      rw [he, parseLitAux.eq_def]
      simp [ih]
    · by_cases h2 : c = '\\'
      · subst h2
        have he : escChars ('\\' :: cs) ++ '"' :: r
            = '\\' :: '\\' :: (escChars cs ++ '"' :: r) := by
          simp [escChars, escChar]
        rw [he, parseLitAux.eq_def]
        simp [ih]
      · have he : escChars (c :: cs) ++ '"' :: r
            = c :: (escChars cs ++ '"' :: r) := by
          simp [escChars, escChar, h1, h2]
        rw [he, parseLitAux.eq_def]
        simp [h1, h2, ih]

/-- Parsing a serialized pair recovers the pair. -/
theorem parsePairItem_dump (p : String × String) (r : List Char) :
    parsePairItem (dumpPairChars p ++ r) = some (p, r) := by
  obtain ⟨k, v⟩ := p
  have h1 : dumpPairChars (k, v) ++ r
      = '"' :: (escChars k.data ++
          '"' :: ':' :: ' ' :: '"' :: (escChars v.data ++ '"' :: r)) := by
    simp [dumpPairChars]
  rw [h1, parsePairItem.eq_def]
  simp [parseLitAux_escape, stringMk_data]

/-- The serialized body has at least one character per pair, so the input
length is always enough fuel. -/
theorem dumpBodyChars_length (d : StrDict) : d.length ≤ (dumpBodyChars d).length := by
  induction d with
  | nil => simp [dumpBodyChars]
  | cons p ps ih =>
    cases ps with
    | nil => simp [dumpBodyChars, dumpPairChars]
    | cons q qs =>
      rw [show dumpBodyChars (p :: q :: qs)
          = dumpPairChars p ++ ',' :: ' ' :: dumpBodyChars (q :: qs) from rfl]
      simp only [List.length_append, List.length_cons, dumpPairChars] at ih ⊢
      omega

/-- Parsing a serialized nonempty sequence of pairs recovers the pairs,
for any fuel bounding the number of pairs. -/
theorem parsePairsAux_dump (ps : StrDict) (hne : ps ≠ []) :
    ∀ fuel, ps.length ≤ fuel →
      parsePairsAux fuel (dumpBodyChars ps ++ ['}']) = some (ps, ['}']) := by
  induction ps with
  | nil => exact absurd rfl hne
  | cons p ps ih =>
    intro fuel hf
    cases fuel with
    | zero => exact absurd hf (by simp)
    | succ f =>
      cases ps with
      | nil =>
        rw [show dumpBodyChars [p] = dumpPairChars p from rfl, parsePairsAux.eq_def]
        simp [parsePairItem_dump]
      | cons q qs =>
        have he : dumpBodyChars (p :: q :: qs) ++ ['}']
            = dumpPairChars p ++ (',' :: ' ' :: (dumpBodyChars (q :: qs) ++ ['}'])) := by
          rw [show dumpBodyChars (p :: q :: qs)
              = dumpPairChars p ++ ',' :: ' ' :: dumpBodyChars (q :: qs) from rfl]
          simp
        have hf2 : (q :: qs).length ≤ f := by
          simp only [List.length_cons] at hf ⊢
          omega
        rw [he, parsePairsAux.eq_def]
        simp [parsePairItem_dump, ih (List.cons_ne_nil q qs) f hf2]

/-- Deserializing a serialized dict gives back the dict: the roundtrip of
the storage encoding used for `summary` and `metadata`. -/
theorem jsonLoads_dumps (d : StrDict) : jsonLoadsDict (jsonDumps d) = some d := by
  cases d with
  | nil => rfl
  | cons p ps =>
    have hdata : (jsonDumps (p :: ps)).data
        = '{' :: (dumpBodyChars (p :: ps) ++ ['}']) := rfl
    have hhead : ∃ t, dumpBodyChars (p :: ps) = '"' :: t := by
      cases ps <;> exact ⟨_, rfl⟩
    obtain ⟨t, ht⟩ := hhead
    have hif : (dumpBodyChars (p :: ps) ++ ['}']) ≠ ['}'] := by
      rw [ht]
      simp
    have hlen : (p :: ps).length ≤ (dumpBodyChars (p :: ps) ++ ['}']).length := by
      have h1 := dumpBodyChars_length (p :: ps)
      simp only [List.length_append, List.length_cons] at h1 ⊢
      omega
    rw [jsonLoadsDict.eq_def]
    simp only [hdata]
    rw [if_neg hif, parsePairsAux_dump (p :: ps) (List.cons_ne_nil p ps) _ hlen]
    simp

/-- A serialized dict is never the empty string (it always starts with an
opening brace), so the falsy-blob branch of `get_document_by_id` never
fires on rows written by `save_document`. -/
theorem jsonDumps_ne_empty (d : StrDict) : jsonDumps d ≠ "" := by
  intro h
  have h2 : (jsonDumps d).data = ("" : String).data := by rw [h]
  rw [show (jsonDumps d).data = '{' :: (dumpBodyChars d ++ ['}']) from rfl] at h2
  simp at h2

/-! ### Stable descending insertion sort -/

/-- Inserting into a list produces a permutation of the element consed on. -/
theorem insDescBy_perm {α : Type} (le : α → α → Bool) (a : α) (l : List α) :
    (insDescBy le a l).Perm (a :: l) := by
  induction l with
  | nil => exact List.Perm.refl _
  | cons b bs ih =>
    by_cases h : le b a
    · simp [insDescBy, h]
    · rw [show insDescBy le a (b :: bs) = b :: insDescBy le a bs from by
        simp [insDescBy, h]]
      exact (ih.cons b).trans (List.Perm.swap a b bs)

/-- The sort is a permutation of its input. -/
theorem sortDescBy_perm {α : Type} (le : α → α → Bool) (l : List α) :
    (sortDescBy le l).Perm l := by
  induction l with
  | nil => exact List.Perm.refl _
  | cons a as ih => exact (insDescBy_perm le a _).trans (ih.cons a)

/-- Inserting into a descending-sorted list keeps it descending-sorted,
given transitivity and totality of the key comparison. -/
theorem insDescBy_pairwise {α : Type} (le : α → α → Bool)
    (htr : ∀ a b c, le a b = true → le b c = true → le a c = true)
    (hto : ∀ a b, le a b = true ∨ le b a = true) (a : α) (l : List α)
    (hl : l.Pairwise (fun x y => le y x = true)) :
    (insDescBy le a l).Pairwise (fun x y => le y x = true) := by
  induction l with
  | nil => simp [insDescBy]
  | cons b bs ih =>
    rcases List.pairwise_cons.mp hl with ⟨hb, hbs⟩
    by_cases h : le b a
    · rw [show insDescBy le a (b :: bs) = a :: b :: bs from by simp [insDescBy, h]]
      refine List.Pairwise.cons ?_ hl
      intro x hx
      rcases List.mem_cons.mp hx with rfl | hx
      · exact h
      · exact htr x b a (hb x hx) h
    · rw [show insDescBy le a (b :: bs) = b :: insDescBy le a bs from by
        simp [insDescBy, h]]
      refine List.Pairwise.cons ?_ (ih hbs)
      intro x hx
      rcases List.mem_cons.mp ((insDescBy_perm le a bs).mem_iff.mp hx) with rfl | hx
      · rcases hto x b with h2 | h2
        · exact h2
        · exact absurd h2 h
      · exact hb x hx

/-- The sort output is descending-sorted in the key comparison. -/
theorem sortDescBy_pairwise {α : Type} (le : α → α → Bool)
    (htr : ∀ a b c, le a b = true → le b c = true → le a c = true)
    (hto : ∀ a b, le a b = true ∨ le b a = true) (l : List α) :
    (sortDescBy le l).Pairwise (fun x y => le y x = true) := by
  induction l with
  | nil => simp [sortDescBy]
  | cons a as ih => exact insDescBy_pairwise le htr hto a _ ih

/-! ### Upsert lemmas -/

/-- After an upsert, looking up the upserted identifier finds exactly the
upserted row. -/
theorem find?_upsertRow (rows : List DocRow) (r : DocRow) :
    (upsertRow rows r).find? (fun x => x.id == r.id) = some r := by
  unfold upsertRow
  by_cases h : rows.any (fun x => x.id == r.id)
  · rw [if_pos h]
    induction rows with
    | nil => simp at h
    | cons x xs ih =>
      rw [List.map_cons]
      by_cases hx : x.id == r.id
      · rw [if_pos hx]
        exact List.find?_cons_of_pos _ (by simp)
      · have h2 : xs.any (fun x => x.id == r.id) = true := by
          rcases List.any_eq_true.mp h with ⟨y, hy, hpy⟩
          rcases List.mem_cons.mp hy with rfl | hy
          · exact absurd hpy hx
          · exact List.any_eq_true.mpr ⟨y, hy, hpy⟩
        rw [if_neg hx, List.find?_cons,
          show (x.id == r.id) = false from by simpa using hx]
        exact ih h2
  · rw [if_neg h]
    have hnone : rows.find? (fun x => x.id == r.id) = none := by
      rw [List.find?_eq_none]
      intro x hx hc
      exact h (List.any_eq_true.mpr ⟨x, hx, hc⟩)
    rw [List.find?_append, hnone]
    simp [List.find?]

/-- Every member of an upserted list with the upserted identifier is the
upserted row itself. -/
theorem mem_upsertRow_id_eq (rows : List DocRow) (r x : DocRow)
    (hx : x ∈ upsertRow rows r) (hid : x.id = r.id) : x = r := by
  unfold upsertRow at hx
  by_cases h : rows.any (fun y => y.id == r.id)
  · rw [if_pos h] at hx
    rcases List.mem_map.mp hx with ⟨y, _, hy⟩
    by_cases hyid : y.id == r.id
    · rw [if_pos hyid] at hy
      exact hy.symm
    · rw [if_neg hyid] at hy
      subst hy
      exact absurd (by simpa using hid) (by simpa using hyid)
  · rw [if_neg h] at hx
    rcases List.mem_append.mp hx with hx | hx
    · have hc : rows.any (fun y => y.id == r.id) = true :=
        List.any_eq_true.mpr ⟨x, hx, by simp [hid]⟩
      exact absurd hc h
    · simpa using hx

/-- Upserting does not change the list of identifiers when the identifier
was already present, and appends it otherwise. -/
theorem upsertRow_ids (rows : List DocRow) (r : DocRow) :
    (upsertRow rows r).map DocRow.id
      = (if rows.any (fun x => x.id == r.id) then rows.map DocRow.id
         else rows.map DocRow.id ++ [r.id]) := by
  unfold upsertRow
  by_cases h : rows.any (fun x => x.id == r.id)
  · rw [if_pos h, if_pos h, List.map_map]
    refine List.map_congr_left ?_
    intro x _
    show (if x.id == r.id then r else x).id = x.id
    by_cases hx : x.id == r.id
    · rw [if_pos hx]
      exact ((by simpa using hx : x.id = r.id)).symm
    · rw [if_neg hx]
  · rw [if_neg h, if_neg h]
    simp

/-- Upserting preserves the primary-key invariant. -/
theorem upsertRow_uniqueIds (rows : List DocRow) (r : DocRow)
    (h : uniqueIds rows) : uniqueIds (upsertRow rows r) := by
  unfold uniqueIds at h ⊢
  rw [upsertRow_ids]
  by_cases hany : rows.any (fun x => x.id == r.id)
  · rwa [if_pos hany]
  · rw [if_neg hany]
    rw [List.nodup_append]
    refine ⟨h, List.nodup_singleton r.id, ?_⟩
    intro a ha hb
    have haeq : a = r.id := by simpa using hb
    subst haeq
    rcases List.mem_map.mp ha with ⟨y, hy, hyid⟩
    have hc : rows.any (fun x => x.id == r.id) = true :=
      List.any_eq_true.mpr ⟨y, hy, by simp [hyid]⟩
    exact absurd hc hany

/-- In a list with duplicate-free identifiers that contains a row with the
given identifier, exactly one row carries it. -/
theorem countP_id_eq_one (rows : List DocRow) (i : String)
    (hu : uniqueIds rows) (hmem : rows.any (fun x => x.id == i) = true) :
    rows.countP (fun x => x.id == i) = 1 := by
  unfold uniqueIds at hu
  induction rows with
  | nil => simp at hmem
  | cons x xs ih =>
    rw [List.map_cons, List.nodup_cons] at hu
    by_cases hxi : x.id == i
    · have hxid : x.id = i := by simpa using hxi
      have hzero : xs.countP (fun y => y.id == i) = 0 := by
        rw [List.countP_eq_zero]
        intro y hy hc
        have hyid : y.id = i := by simpa using hc
        exact hu.1 (List.mem_map.mpr ⟨y, hy, show y.id = x.id by rw [hyid, hxid]⟩)
      simp [List.countP_cons, hxi, hzero]
    · have h2 : xs.any (fun y => y.id == i) = true := by
        rcases List.any_eq_true.mp hmem with ⟨y, hy, hpy⟩
        rcases List.mem_cons.mp hy with rfl | hy
        · exact absurd hpy hxi
        · exact List.any_eq_true.mpr ⟨y, hy, hpy⟩
      have htail := ih hu.2 h2
      simp [List.countP_cons, hxi, htail]

/-- Counting rows by identifier after an upsert: exactly one row carries
the upserted identifier, when the invariant held before. -/
theorem countP_upsertRow (rows : List DocRow) (r : DocRow) (hu : uniqueIds rows) :
    (upsertRow rows r).countP (fun x => x.id == r.id) = 1 := by
  have hr : r ∈ upsertRow rows r :=
    List.mem_of_find?_eq_some (find?_upsertRow rows r)
  have hmem : (upsertRow rows r).any (fun x => x.id == r.id) = true :=
    List.any_eq_true.mpr ⟨r, hr, by simp⟩
  exact countP_id_eq_one _ _ (upsertRow_uniqueIds rows r hu) hmem

/-- Upserting an identifier that is already present keeps the number of
rows unchanged. -/
theorem upsertRow_length_of_mem (rows : List DocRow) (r : DocRow)
    (h : rows.any (fun x => x.id == r.id) = true) :
    (upsertRow rows r).length = rows.length := by
  unfold upsertRow
  rw [if_pos h, List.length_map]

/-- Upserting the same row twice is the same as upserting it once. -/
theorem upsertRow_idem (rows : List DocRow) (r : DocRow) :
    upsertRow (upsertRow rows r) r = upsertRow rows r := by
  have hr : r ∈ upsertRow rows r :=
    List.mem_of_find?_eq_some (find?_upsertRow rows r)
  have hany : (upsertRow rows r).any (fun x => x.id == r.id) = true :=
    List.any_eq_true.mpr ⟨r, hr, by simp⟩
  conv_lhs => rw [upsertRow]
  rw [if_pos hany]
  have hfix : ∀ x ∈ upsertRow rows r, (if x.id == r.id then r else x) = x := by
    intro x hx
    by_cases hxid : x.id == r.id
    · have hxr : x = r := mem_upsertRow_id_eq rows r x hx (by simpa using hxid)
      rw [if_pos hxid, hxr]
    · rw [if_neg hxid]
  rw [List.map_congr_left hfix]
  simp

/-! ### Similarity machinery -/

/-- The loop body of the matcher, characterized against the set-level
Jaccard similarity: a row is kept exactly when it qualifies, and the
reported match carries the row's identifier, its filename, and the rounded
similarity percentage. -/
theorem scoreRow_eq_mkMatch (t : String) (θ : ℚ) (r : DocRow) :
    scoreRow (distinctWords t) θ r
      = (if qualifies t θ r then
          some { doc_id := r.id, filename := r.filename,
                 similarity := roundPct (jaccardSim t r.ocr_text) }
         else none) := by
  have hlen : (distinctWords r.ocr_text).length = (tokenSet r.ocr_text).card :=
    distinctWords_length _
  have hint : ((distinctWords t).filter
        (fun w => (distinctWords r.ocr_text).contains w)).length
      = (tokenSet t ∩ tokenSet r.ocr_text).card := interFilter_length t r.ocr_text
  have huni : ((distinctWords t ++ distinctWords r.ocr_text).dedup).length
      = (tokenSet t ∪ tokenSet r.ocr_text).card := unionDedup_length t r.ocr_text
  unfold scoreRow
  rw [hint, huni, hlen]
  by_cases h1 : r.ocr_text = ""
  · simp [h1, qualifies]
  · rw [if_neg h1]
    by_cases h2 : (tokenSet r.ocr_text).card < 10
    · rw [if_pos h2]
      have hn : ¬(10 ≤ (tokenSet r.ocr_text).card) := by omega
      simp [qualifies, h1, hn]
    · rw [if_neg h2]
      have h10 : 10 ≤ (tokenSet r.ocr_text).card := by omega
      have hpos : 0 < (tokenSet t ∪ tokenSet r.ocr_text).card := by
        have hsub : (tokenSet r.ocr_text).card
            ≤ (tokenSet t ∪ tokenSet r.ocr_text).card :=
          Finset.card_le_card Finset.subset_union_right
        omega
      rw [if_pos hpos]
      by_cases h3 : θ ≤ Rat.divInt ((tokenSet t ∩ tokenSet r.ocr_text).card : ℤ)
          ((tokenSet t ∪ tokenSet r.ocr_text).card : ℤ)
      · rw [if_pos h3]
        have hq : qualifies t θ r = true := by
          unfold qualifies
          rw [Bool.and_eq_true, Bool.and_eq_true]
          refine ⟨⟨by simp [h1], decide_eq_true h10⟩, decide_eq_true h3⟩
        rw [if_pos hq]
        rfl
      · rw [if_neg h3]
        have hq : qualifies t θ r = false := by
          have hc : decide (θ ≤ jaccardSim t r.ocr_text) = false := decide_eq_false h3
          unfold qualifies
          rw [hc, Bool.and_false]
        rw [if_neg (by simp [hq])]

/-- A row produces a match exactly when it qualifies. -/
theorem scoreRow_isSome (t : String) (θ : ℚ) (r : DocRow) :
    (scoreRow (distinctWords t) θ r).isSome = qualifies t θ r := by
  rw [scoreRow_eq_mkMatch]
  by_cases h : qualifies t θ r <;> simp [h]

/-- On an available store with a nonempty candidate of at least 10 distinct
tokens and no backend failure, the matcher is: score every row, sort the
kept matches descending by reported similarity, return the first five. -/
theorem find_similar_eq (rows : List DocRow) (t : String) (θ : ℚ)
    (ht : t ≠ "") (h10 : 10 ≤ (tokenSet t).card) :
    find_similar_documents (some rows) false t θ
      = (sortDescBy (fun a b => decide (a.similarity ≤ b.similarity))
          (rows.filterMap (scoreRow (distinctWords t) θ))).take 5 := by
  by_cases hrows : rows.isEmpty
  · have hnil : rows = [] := List.isEmpty_iff.mp hrows
    subst hnil
    simp only [find_similar_documents]
    rw [if_neg ht]
    simp [sortDescBy]
  · simp only [find_similar_documents]
    rw [if_neg ht]
    have h10n : ¬((distinctWords t).length < 10) := by
      rw [distinctWords_length]
      omega
    simp [hrows, h10n]

/-- C1: For every candidate text whose set of distinct whitespace-delimited,
case-folded tokens has at least 10 elements, and every available store,
`find_similar_documents` computes for each eligible stored document the
Jaccard similarity (intersection size over union size of the two token
sets), keeps exactly the documents whose similarity reaches the threshold
(their number is reflected in the result length, capped at 5), reports each
kept document's similarity as a percentage rounded to one decimal place,
sorts the kept matches by reported similarity descending, and returns at
most the top 5 matches: every qualifying document is either represented in
the result or scores no higher than every returned match. -/
theorem find_similar_documents_correct (rows : List DocRow) (t : String) (θ : ℚ)
    (ht : t ≠ "") (h10 : 10 ≤ (tokenSet t).card) :
    (find_similar_documents (some rows) false t θ).length
        = min (rows.countP (qualifies t θ)) 5
    ∧ (find_similar_documents (some rows) false t θ).Pairwise
        (fun a b => b.similarity ≤ a.similarity)
    ∧ (∀ m ∈ find_similar_documents (some rows) false t θ,
        ∃ r ∈ rows, qualifies t θ r = true ∧ m.doc_id = r.id
          ∧ m.similarity = roundPct (jaccardSim t r.ocr_text))
    ∧ (rows.countP (qualifies t θ) ≤ 5 →
        ∀ r ∈ rows, qualifies t θ r = true →
          ∃ m ∈ find_similar_documents (some rows) false t θ,
            m.doc_id = r.id ∧ m.similarity = roundPct (jaccardSim t r.ocr_text))
    ∧ (∀ r ∈ rows, qualifies t θ r = true →
        (∃ m ∈ find_similar_documents (some rows) false t θ,
            m.doc_id = r.id ∧ m.similarity = roundPct (jaccardSim t r.ocr_text))
        ∨ (∀ m ∈ find_similar_documents (some rows) false t θ,
            roundPct (jaccardSim t r.ocr_text) ≤ m.similarity)) := by
  have heq := find_similar_eq rows t θ ht h10
  have hklen : (rows.filterMap (scoreRow (distinctWords t) θ)).length
      = rows.countP (qualifies t θ) := by
    rw [List.length_filterMap_eq_countP]
    exact List.countP_congr (fun r _ => by rw [scoreRow_isSome])
  have hsortlen : (sortDescBy (fun a b => decide (a.similarity ≤ b.similarity))
        (rows.filterMap (scoreRow (distinctWords t) θ))).length
      = (rows.filterMap (scoreRow (distinctWords t) θ)).length :=
    (sortDescBy_perm _ _).length_eq
  have htrans : ∀ a b c : SimMatch, decide (a.similarity ≤ b.similarity) = true →
      decide (b.similarity ≤ c.similarity) = true →
      decide (a.similarity ≤ c.similarity) = true := by
    intro a b c hab hbc
    rw [decide_eq_true_eq] at *
    exact le_trans hab hbc
  have htotal : ∀ a b : SimMatch, decide (a.similarity ≤ b.similarity) = true
      ∨ decide (b.similarity ≤ a.similarity) = true := by
    intro a b
    rcases le_total a.similarity b.similarity with h | h
    · exact Or.inl (decide_eq_true h)
    · exact Or.inr (decide_eq_true h)
  have hpw := sortDescBy_pairwise _ htrans htotal
    (rows.filterMap (scoreRow (distinctWords t) θ))
  refine ⟨?_, ?_, ?_, ?_, ?_⟩
  · rw [heq, List.length_take, hsortlen, hklen, Nat.min_comm]
  · rw [heq]
    exact (hpw.sublist (List.take_sublist 5 _)).imp (fun h => by simpa using h)
  · intro m hm
    rw [heq] at hm
    have hm3 : m ∈ rows.filterMap (scoreRow (distinctWords t) θ) :=
      (sortDescBy_perm _ _).mem_iff.mp (List.mem_of_mem_take hm)
    rcases List.mem_filterMap.mp hm3 with ⟨r, hr, hscore⟩
    rw [scoreRow_eq_mkMatch] at hscore
    by_cases hq : qualifies t θ r
    · rw [if_pos hq] at hscore
      have hmeq := (Option.some_inj.mp hscore).symm
      subst hmeq
      exact ⟨r, hr, hq, rfl, rfl⟩
    · rw [if_neg hq] at hscore
      exact absurd hscore (by simp)
  · intro hc r hr hq
    rw [heq]
    have htake : (sortDescBy (fun a b => decide (a.similarity ≤ b.similarity))
          (rows.filterMap (scoreRow (distinctWords t) θ))).take 5
        = sortDescBy (fun a b => decide (a.similarity ≤ b.similarity))
            (rows.filterMap (scoreRow (distinctWords t) θ)) := by
      refine List.take_of_length_le ?_
      rw [hsortlen, hklen]
      exact hc
    rw [htake]
    have hmem : (⟨r.id, r.filename, roundPct (jaccardSim t r.ocr_text)⟩ : SimMatch)
        ∈ rows.filterMap (scoreRow (distinctWords t) θ) :=
      List.mem_filterMap.mpr ⟨r, hr, by rw [scoreRow_eq_mkMatch, if_pos hq]⟩
    exact ⟨_, (sortDescBy_perm _ _).mem_iff.mpr hmem, rfl, rfl⟩
  · intro r hr hq
    have hmem : (⟨r.id, r.filename, roundPct (jaccardSim t r.ocr_text)⟩ : SimMatch)
        ∈ rows.filterMap (scoreRow (distinctWords t) θ) :=
      List.mem_filterMap.mpr ⟨r, hr, by rw [scoreRow_eq_mkMatch, if_pos hq]⟩
    by_cases hin : (⟨r.id, r.filename, roundPct (jaccardSim t r.ocr_text)⟩ : SimMatch)
        ∈ (sortDescBy (fun a b => decide (a.similarity ≤ b.similarity))
            (rows.filterMap (scoreRow (distinctWords t) θ))).take 5
    · left
      rw [heq]
      exact ⟨_, hin, rfl, rfl⟩
    · right
      intro m hm
      rw [heq] at hm
      have hmS : (⟨r.id, r.filename, roundPct (jaccardSim t r.ocr_text)⟩ : SimMatch)
          ∈ sortDescBy (fun a b => decide (a.similarity ≤ b.similarity))
              (rows.filterMap (scoreRow (distinctWords t) θ)) :=
        (sortDescBy_perm _ _).mem_iff.mpr hmem
      rw [← List.take_append_drop 5 (sortDescBy (fun a b => decide (a.similarity ≤ b.similarity))
        (rows.filterMap (scoreRow (distinctWords t) θ)))] at hmS
      have hdrop : (⟨r.id, r.filename, roundPct (jaccardSim t r.ocr_text)⟩ : SimMatch)
          ∈ (sortDescBy (fun a b => decide (a.similarity ≤ b.similarity))
              (rows.filterMap (scoreRow (distinctWords t) θ))).drop 5 := by
        rcases List.mem_append.mp hmS with h | h
        · exact absurd h hin
        · exact h
      have hpw2 : List.Pairwise (fun x y => decide (y.similarity ≤ x.similarity) = true)
          ((sortDescBy (fun a b => decide (a.similarity ≤ b.similarity))
              (rows.filterMap (scoreRow (distinctWords t) θ))).take 5
            ++ (sortDescBy (fun a b => decide (a.similarity ≤ b.similarity))
              (rows.filterMap (scoreRow (distinctWords t) θ))).drop 5) := by
        rw [List.take_append_drop]
        exact hpw
      have hle := (List.pairwise_append.mp hpw2).2.2 m hm _ hdrop
      simpa using hle

/-- Reading a row whose serialized blobs are serializer output yields the
full record with the blobs deserialized. -/
theorem get_document_by_id_some (rows : List DocRow) (i : String) (r : DocRow)
    (ds dm : StrDict)
    (hfind : rows.find? (fun x => x.id == i) = some r)
    (hs : r.summary_json = jsonDumps ds) (hm : r.metadata_json = jsonDumps dm) :
    get_document_by_id (some rows) false i
      = some { doc_id := r.id, filename := r.filename, file_path := r.file_path,
               upload_date := r.upload_date, file_type := r.file_type,
               file_size := r.file_size, full_text := r.ocr_text,
               word_count := if r.ocr_text = "" then 0
                 else (pySplit r.ocr_text).length,
               title := if r.filename = "" then r.id else r.filename,
               summary := ds, metadata := dm } := by
  simp only [get_document_by_id, hfind, Bool.false_eq_true, if_false]
  rw [hs, hm, if_neg (jsonDumps_ne_empty ds), if_neg (jsonDumps_ne_empty dm),
    jsonLoads_dumps, jsonLoads_dumps]

/-- C2: For every document with an identifier and text containing at least
one word, if `save_document` succeeds against an available store, then
`get_document_by_id` for that identifier returns a record whose full text
equals the saved text, whose word count equals the number of
whitespace-delimited tokens of that text, and whose summary and metadata
are the maps that were saved, deserialized from their stored encoding. -/
theorem save_get_roundtrip (rows : List DocRow)
    (now doc_id fn fp text : String) (ft : Option String) (fs : Int)
    (sum meta : Option StrDict)
    (hw : 1 ≤ (pySplit text).length) :
    (save_document (some rows) false now doc_id fn fp text ft fs sum meta).1 = true
    ∧ ∃ d, get_document_by_id
          (save_document (some rows) false now doc_id fn fp text ft fs sum meta).2
          false doc_id = some d
        ∧ d.full_text = text
        ∧ d.word_count = (pySplit text).length
        ∧ d.summary = sum.getD []
        ∧ d.metadata = meta.getD [] := by
  constructor
  · rfl
  · have hfind : (upsertRow rows (savedRow now doc_id fn fp text ft fs sum meta)).find?
        (fun x => x.id == doc_id)
        = some (savedRow now doc_id fn fp text ft fs sum meta) :=
      find?_upsertRow rows (savedRow now doc_id fn fp text ft fs sum meta)
    refine ⟨_, get_document_by_id_some _ doc_id _ (sum.getD []) (meta.getD [])
      hfind rfl rfl, rfl, ?_, rfl, rfl⟩
    show (if text = "" then 0 else (pySplit text).length) = (pySplit text).length
    by_cases htext : text = ""
    · subst htext
      rfl
    · rw [if_neg htext]

/-- C3: when the primary store is unavailable, Save returns false, List
returns the empty sequence, GetByID returns absent, Delete returns false,
and FindSimilar returns the empty sequence; the same sentinel shapes are
returned when a backend call fails on an available connection. In the
embedding all five operations are total functions, which models that none
of them raises to the caller. -/
theorem degradation_sentinels (rows : List DocRow) (b : Bool)
    (now doc_id fn fp text : String) (ft : Option String) (fs : Int)
    (sum meta : Option StrDict) (θ : ℚ) :
    save_document none b now doc_id fn fp text ft fs sum meta = (false, none)
    ∧ get_all_documents_from_db none b = []
    ∧ get_document_by_id none b doc_id = none
    ∧ delete_document none b doc_id = (false, none)
    ∧ find_similar_documents none b text θ = []
    ∧ (save_document (some rows) true now doc_id fn fp text ft fs sum meta).1 = false
    ∧ get_all_documents_from_db (some rows) true = []
    ∧ get_document_by_id (some rows) true doc_id = none
    ∧ (delete_document (some rows) true doc_id).1 = false
    ∧ find_similar_documents (some rows) true text θ = [] := by
  refine ⟨rfl, rfl, rfl, rfl, rfl, rfl, rfl, rfl, rfl, ?_⟩
  by_cases htext : text = "" <;> simp [find_similar_documents, htext]

/-- C4: on an available store, List returns all stored records (their
identifiers are a permutation of the stored identifiers) ordered by upload
timestamp most recent first, and each preview carries the row's fields,
with: text preview equal to the full text when its length is at most 300
characters and otherwise the first 300 characters followed by an ellipsis
marker; word count equal to the number of whitespace-delimited tokens of
the full text (0 when the text is empty); and title equal to the filename
when present, otherwise the identifier. -/
theorem get_all_documents_correct (rows : List DocRow) :
    ((get_all_documents_from_db (some rows) false).map (fun p => p.doc_id)).Perm
        (rows.map (fun r => r.id))
    ∧ (get_all_documents_from_db (some rows) false).Pairwise
        (fun a b => b.upload_date ≤ a.upload_date)
    ∧ ∀ p ∈ get_all_documents_from_db (some rows) false, ∃ r ∈ rows,
        p.doc_id = r.id ∧ p.filename = r.filename ∧ p.file_path = r.file_path
        ∧ p.upload_date = r.upload_date ∧ p.file_type = r.file_type
        ∧ p.file_size = r.file_size
        ∧ p.text_preview = (if r.ocr_text.data.length ≤ 300 then r.ocr_text
            else String.mk (r.ocr_text.data.take 300) ++ "...")
        ∧ p.word_count = (pySplit r.ocr_text).length
        ∧ p.title = (if r.filename = "" then r.id else r.filename) := by
  have hred : get_all_documents_from_db (some rows) false
      = (sortDescBy (fun a b => decide (a.upload_date ≤ b.upload_date)) rows).map
          previewOfRow := rfl
  have hperm := sortDescBy_perm
    (fun (a b : DocRow) => decide (a.upload_date ≤ b.upload_date)) rows
  refine ⟨?_, ?_, ?_⟩
  · rw [hred, List.map_map]
    exact hperm.map (fun r => r.id)
  · rw [hred]
    have htrans : ∀ a b c : DocRow, decide (a.upload_date ≤ b.upload_date) = true →
        decide (b.upload_date ≤ c.upload_date) = true →
        decide (a.upload_date ≤ c.upload_date) = true := by
      intro a b c hab hbc
      rw [decide_eq_true_eq] at *
      exact le_trans hab hbc
    have htotal : ∀ a b : DocRow, decide (a.upload_date ≤ b.upload_date) = true
        ∨ decide (b.upload_date ≤ a.upload_date) = true := by
      intro a b
      rcases le_total a.upload_date b.upload_date with h | h
      · exact Or.inl (decide_eq_true h)
      · exact Or.inr (decide_eq_true h)
    have hpw := sortDescBy_pairwise _ htrans htotal rows
    exact hpw.map previewOfRow (fun a b h => by simpa using h)
  · intro p hp
    rw [hred] at hp
    rcases List.mem_map.mp hp with ⟨r, hrs, hpr⟩
    have hr : r ∈ rows := hperm.mem_iff.mp hrs
    subst hpr
    refine ⟨r, hr, rfl, rfl, rfl, rfl, rfl, rfl, ?_, ?_, rfl⟩
    · show (if r.ocr_text ≠ "" ∧ 300 < r.ocr_text.data.length
          then String.mk (r.ocr_text.data.take 300) ++ "..." else r.ocr_text) = _
      by_cases hlen : r.ocr_text.data.length ≤ 300
      · rw [if_pos hlen, if_neg (fun h => absurd h.2 (by omega))]
      · rw [if_neg hlen]
        have hne : r.ocr_text ≠ "" := by
          intro h
          rw [h] at hlen
          exact hlen (by simp)
        rw [if_pos ⟨hne, by omega⟩]
    · show (if r.ocr_text = "" then 0 else (pySplit r.ocr_text).length) = _
      by_cases htext : r.ocr_text = ""
      · rw [if_pos htext, htext]
        rfl
      · rw [if_neg htext]

/-- C5: for every threshold, FindSimilar returns the empty sequence
whenever the candidate text has fewer than 10 distinct case-folded
whitespace tokens, and every match in any FindSimilar result comes from a
stored row whose text has at least 10 distinct case-folded whitespace
tokens, so a stored document below that size is never present in a
result. -/
theorem short_text_exclusion (client : Option (List DocRow)) (b : Bool)
    (t : String) (θ : ℚ) :
    ((tokenSet t).card < 10 → find_similar_documents client b t θ = [])
    ∧ (∀ rows, client = some rows →
        ∀ m ∈ find_similar_documents client b t θ,
          ∃ r ∈ rows, m.doc_id = r.id ∧ 10 ≤ (tokenSet r.ocr_text).card) := by
  constructor
  · intro hcard
    cases client with
    | none => rfl
    | some rows =>
      by_cases htext : t = ""
      · simp [find_similar_documents, htext]
      · have hlt : (distinctWords t).length < 10 := by
          rw [distinctWords_length]
          omega
        cases b <;> simp [find_similar_documents, htext, hlt]
  · intro rows hclient m hm
    subst hclient
    by_cases htext : t = ""
    · rw [show find_similar_documents (some rows) b t θ = [] from by
        simp [find_similar_documents, htext]] at hm
      exact absurd hm (List.not_mem_nil m)
    cases b with
    | true =>
      rw [show find_similar_documents (some rows) true t θ = [] from by
        simp [find_similar_documents, htext]] at hm
      exact absurd hm (List.not_mem_nil m)
    | false =>
      by_cases hlt : (distinctWords t).length < 10
      · rw [show find_similar_documents (some rows) false t θ = [] from by
          simp [find_similar_documents, htext, hlt]] at hm
        exact absurd hm (List.not_mem_nil m)
      · have h10 : 10 ≤ (tokenSet t).card := by
          rw [← distinctWords_length]
          omega
        rw [find_similar_eq rows t θ htext h10] at hm
        have hm3 : m ∈ rows.filterMap (scoreRow (distinctWords t) θ) :=
          (sortDescBy_perm _ _).mem_iff.mp (List.mem_of_mem_take hm)
        rcases List.mem_filterMap.mp hm3 with ⟨r, hr, hscore⟩
        rw [scoreRow_eq_mkMatch] at hscore
        by_cases hq : qualifies t θ r
        · rw [if_pos hq] at hscore
          have hmeq := (Option.some_inj.mp hscore).symm
          subst hmeq
          have hq2 := hq
          unfold qualifies at hq2
          rw [Bool.and_eq_true, Bool.and_eq_true] at hq2
          exact ⟨r, hr, rfl, by simpa using hq2.1.2⟩
        · rw [if_neg hq] at hscore
          exact absurd hscore (by simp)

/-- C6: on an available store satisfying the primary-key invariant,
saving twice with identical id and identical fields leaves the store as a
single save does; after a save, exactly one stored record carries the id,
the invariant is preserved, the record's fields are those of the input,
and a save over a pre-existing record keeps the number of records
unchanged (insert-or-replace keyed by id, no second record created). -/
theorem save_document_upsert (rows : List DocRow) (hu : uniqueIds rows)
    (now doc_id fn fp text : String) (ft : Option String) (fs : Int)
    (sum meta : Option StrDict) :
    ∃ rows1,
      (save_document (some rows) false now doc_id fn fp text ft fs sum meta).2
          = some rows1
      ∧ save_document (some rows1) false now doc_id fn fp text ft fs sum meta
          = (true, some rows1)
      ∧ rows1.countP (fun r => r.id == doc_id) = 1
      ∧ uniqueIds rows1
      ∧ (∀ r0 ∈ rows, r0.id = doc_id → rows1.length = rows.length)
      ∧ ∃ r1, rows1.find? (fun r => r.id == doc_id) = some r1
          ∧ r1.id = doc_id ∧ r1.filename = fn ∧ r1.file_path = fp
          ∧ r1.ocr_text = text ∧ r1.file_size = fs ∧ r1.upload_date = now := by
  refine ⟨upsertRow rows (savedRow now doc_id fn fp text ft fs sum meta),
    rfl, ?_, ?_, ?_, ?_, ?_⟩
  · show (true, some (upsertRow (upsertRow rows _) _)) = _
    rw [upsertRow_idem]
  · exact countP_upsertRow rows (savedRow now doc_id fn fp text ft fs sum meta) hu
  · exact upsertRow_uniqueIds rows _ hu
  · intro r0 hr0 hid
    exact upsertRow_length_of_mem rows _
      (List.any_eq_true.mpr ⟨r0, hr0, by simp [savedRow, hid]⟩)
  · exact ⟨savedRow now doc_id fn fp text ft fs sum meta,
      find?_upsertRow rows (savedRow now doc_id fn fp text ft fs sum meta),
      rfl, rfl, rfl, rfl, rfl, rfl⟩

/-- C7: on an available store, Delete returns true even when no record
with the identifier exists, and then the stored records are unchanged;
Delete returns false only on a store-level failure (store unavailable or
backend call failure). -/
theorem delete_document_spec (rows : List DocRow) (b : Bool) (i : String) :
    (delete_document (some rows) false i).1 = true
    ∧ ((∀ r ∈ rows, r.id ≠ i) → delete_document (some rows) false i = (true, some rows))
    ∧ (delete_document none b i).1 = false
    ∧ (delete_document (some rows) true i).1 = false := by
  refine ⟨rfl, ?_, rfl, rfl⟩
  intro h
  show (true, some (rows.filter (fun r => r.id != i))) = (true, some rows)
  rw [List.filter_eq_self.mpr (fun r hr => by simpa using h r hr)]

/-- C8 counterexample: supplying the empty string as `file_type` does not
store it as given; the stored file type is the filename's lower-cased
extension instead, because the code tests the argument for Python
truthiness rather than for absence. -/
theorem save_file_type_counterexample :
    ∃ rows1 r, (save_document (some []) false "2024-01-01T00:00:00" "d1"
        "report.PDF" "/p" "text" (some "") 0 none none).2 = some rows1
      ∧ rows1.find? (fun x => x.id == "d1") = some r
      ∧ r.file_type = ".pdf" ∧ r.file_type ≠ "" :=
  ⟨[savedRow "2024-01-01T00:00:00" "d1" "report.PDF" "/p" "text" (some "") 0 none none],
   savedRow "2024-01-01T00:00:00" "d1" "report.PDF" "/p" "text" (some "") 0 none none,
   rfl, by decide, by decide, by decide⟩

/-- C8 (amended): a document saved with an absent or empty `file_type`
stores the filename's extension lower-cased; a nonempty supplied
`file_type` is stored as given. -/
theorem save_file_type_amended (rows : List DocRow)
    (now doc_id fn fp text : String) (ft : Option String) (fs : Int)
    (sum meta : Option StrDict) :
    ∃ rows1 r, (save_document (some rows) false now doc_id fn fp text ft fs sum meta).2
        = some rows1
      ∧ rows1.find? (fun x => x.id == doc_id) = some r
      ∧ ((ft = none ∨ ft = some "") → r.file_type = lowerStr (pathSuffix fn))
      ∧ (∀ s, ft = some s → s ≠ "" → r.file_type = s) := by
  refine ⟨upsertRow rows (savedRow now doc_id fn fp text ft fs sum meta),
    savedRow now doc_id fn fp text ft fs sum meta, rfl,
    find?_upsertRow rows (savedRow now doc_id fn fp text ft fs sum meta), ?_, ?_⟩
  · intro h
    rcases h with rfl | rfl
    · rfl
    · rfl
  · intro s hs hne
    subst hs
    show pyStrOr (some s) (lowerStr (pathSuffix fn)) = s
    simp only [pyStrOr]
    rw [if_neg hne]

/-- C9: a document saved with the summary map and/or the metadata map
absent stores the serialized empty map for the absent field, and a
subsequent read of that identifier returns an empty map (not an absent
value) for those fields. -/
theorem save_absent_maps (rows : List DocRow)
    (now doc_id fn fp text : String) (ft : Option String) (fs : Int)
    (sum meta : Option StrDict) :
    ∃ rows1 r d,
      (save_document (some rows) false now doc_id fn fp text ft fs sum meta).2
          = some rows1
      ∧ rows1.find? (fun x => x.id == doc_id) = some r
      ∧ get_document_by_id (some rows1) false doc_id = some d
      ∧ (sum = none → r.summary_json = jsonDumps [] ∧ d.summary = [])
      ∧ (meta = none → r.metadata_json = jsonDumps [] ∧ d.metadata = []) := by
  have hfind : (upsertRow rows (savedRow now doc_id fn fp text ft fs sum meta)).find?
      (fun x => x.id == doc_id)
      = some (savedRow now doc_id fn fp text ft fs sum meta) :=
    find?_upsertRow rows (savedRow now doc_id fn fp text ft fs sum meta)
  refine ⟨upsertRow rows (savedRow now doc_id fn fp text ft fs sum meta),
    savedRow now doc_id fn fp text ft fs sum meta, _, rfl, hfind,
    get_document_by_id_some _ doc_id _ (sum.getD []) (meta.getD []) hfind rfl rfl,
    ?_, ?_⟩
  · intro h
    subst h
    exact ⟨rfl, rfl⟩
  · intro h
    subst h
    exact ⟨rfl, rfl⟩

/-- C10: Save performs no validation of the identifier: its boolean result
is available-and-no-backend-failure, independent of every argument
including the id; an empty id is forwarded to the backend and stored. -/
theorem save_no_id_validation (client : Option (List DocRow))
    (rows : List DocRow) (b : Bool)
    (now doc_id fn fp text now2 id2 fn2 fp2 text2 : String)
    (ft ft2 : Option String) (fs fs2 : Int)
    (sum meta sum2 meta2 : Option StrDict) :
    (save_document client b now doc_id fn fp text ft fs sum meta).1
        = (client.isSome && !b)
    ∧ (save_document client b now doc_id fn fp text ft fs sum meta).1
        = (save_document client b now2 id2 fn2 fp2 text2 ft2 fs2 sum2 meta2).1
    ∧ ∃ rows1, (save_document (some rows) false now "" fn fp text ft fs sum meta).2
          = some rows1
        ∧ ∃ r ∈ rows1, r.id = "" := by
  refine ⟨?_, ?_, ?_⟩
  · cases client <;> cases b <;> rfl
  · cases client <;> cases b <;> rfl
  · refine ⟨upsertRow rows (savedRow now "" fn fp text ft fs sum meta), rfl,
      savedRow now "" fn fp text ft fs sum meta, ?_, rfl⟩
    exact List.mem_of_find?_eq_some
      (find?_upsertRow rows (savedRow now "" fn fp text ft fs sum meta))

/-- Witness for C1 at a concrete store and candidate: one stored document
with the same ten tokens as the candidate is returned as the one match. -/
theorem find_similar_documents_correct_witness :
    (find_similar_documents
        (some [{ id := "d1", filename := "a.txt", file_path := "/p",
                 upload_date := "T", file_type := ".txt", file_size := 0,
                 ocr_text := "a b c d e f g h i j",
                 summary_json := jsonDumps [], metadata_json := jsonDumps [] }])
        false "a b c d e f g h i j" (Rat.divInt 1 2)).length = 1 := by
  have h := find_similar_documents_correct
    [{ id := "d1", filename := "a.txt", file_path := "/p",
       upload_date := "T", file_type := ".txt", file_size := 0,
       ocr_text := "a b c d e f g h i j",
       summary_json := jsonDumps [], metadata_json := jsonDumps [] }]
    "a b c d e f g h i j" (Rat.divInt 1 2) (by decide) (by decide)
  rw [h.1]
  decide

/-- Witness for C2 at a concrete document: saving then reading id d1 gives
back the text, token count, summary and metadata. -/
theorem save_get_roundtrip_witness :
    (save_document (some []) false "T" "d1" "f.txt" "/p" "alpha beta gamma"
        none 0 (some [("k", "v")]) none).1 = true
    ∧ ∃ d, get_document_by_id
          (save_document (some []) false "T" "d1" "f.txt" "/p" "alpha beta gamma"
            none 0 (some [("k", "v")]) none).2
          false "d1" = some d
        ∧ d.full_text = "alpha beta gamma"
        ∧ d.word_count = (pySplit "alpha beta gamma").length
        ∧ d.summary = (some [("k", "v")] : Option StrDict).getD []
        ∧ d.metadata = (none : Option StrDict).getD [] :=
  save_get_roundtrip [] "T" "d1" "f.txt" "/p" "alpha beta gamma"
    none 0 (some [("k", "v")]) none (by decide)

/-- Witness for C4 at a concrete store: the listed identifiers are a
permutation of the stored ones. -/
theorem get_all_documents_correct_witness :
    ((get_all_documents_from_db
        (some [{ id := "d1", filename := "a.txt", file_path := "/p",
                 upload_date := "T", file_type := ".txt", file_size := 0,
                 ocr_text := "x y", summary_json := jsonDumps [],
                 metadata_json := jsonDumps [] }]) false).map
        (fun p => p.doc_id)).Perm
      (([{ id := "d1", filename := "a.txt", file_path := "/p",
           upload_date := "T", file_type := ".txt", file_size := 0,
           ocr_text := "x y", summary_json := jsonDumps [],
           metadata_json := jsonDumps [] }] : List DocRow).map (fun r => r.id)) :=
  (get_all_documents_correct
    [{ id := "d1", filename := "a.txt", file_path := "/p",
       upload_date := "T", file_type := ".txt", file_size := 0,
       ocr_text := "x y", summary_json := jsonDumps [],
       metadata_json := jsonDumps [] }]).1

/-- Witness for C5 at a concrete short candidate: two distinct tokens is
below the cutoff, so the result is empty. -/
theorem short_text_exclusion_witness :
    find_similar_documents
        (some [{ id := "d1", filename := "a.txt", file_path := "/p",
                 upload_date := "T", file_type := ".txt", file_size := 0,
                 ocr_text := "a b c d e f g h i j",
                 summary_json := jsonDumps [], metadata_json := jsonDumps [] }])
        false "a b" (Rat.divInt 1 2) = [] :=
  (short_text_exclusion
    (some [{ id := "d1", filename := "a.txt", file_path := "/p",
             upload_date := "T", file_type := ".txt", file_size := 0,
             ocr_text := "a b c d e f g h i j",
             summary_json := jsonDumps [], metadata_json := jsonDumps [] }])
    false "a b" (Rat.divInt 1 2)).1 (by decide)

/-- Witness for C6 at a concrete save into an empty store. -/
theorem save_document_upsert_witness :
    ∃ rows1,
      (save_document (some []) false "T" "d1" "f.txt" "/p" "t" none 0 none none).2
          = some rows1
      ∧ save_document (some rows1) false "T" "d1" "f.txt" "/p" "t" none 0 none none
          = (true, some rows1)
      ∧ rows1.countP (fun r => r.id == "d1") = 1
      ∧ uniqueIds rows1
      ∧ (∀ r0 ∈ ([] : List DocRow), r0.id = "d1"
          → rows1.length = ([] : List DocRow).length)
      ∧ ∃ r1, rows1.find? (fun r => r.id == "d1") = some r1
          ∧ r1.id = "d1" ∧ r1.filename = "f.txt" ∧ r1.file_path = "/p"
          ∧ r1.ocr_text = "t" ∧ r1.file_size = 0 ∧ r1.upload_date = "T" :=
  save_document_upsert [] List.Pairwise.nil "T" "d1" "f.txt" "/p" "t" none 0 none none

/-- Witness for C7 at a concrete store: deleting a missing identifier
returns success and leaves the store unchanged. -/
theorem delete_document_spec_witness :
    delete_document
        (some [{ id := "d1", filename := "a.txt", file_path := "/p",
                 upload_date := "T", file_type := ".txt", file_size := 0,
                 ocr_text := "x", summary_json := jsonDumps [],
                 metadata_json := jsonDumps [] }]) false "missing-id"
      = (true, some [{ id := "d1", filename := "a.txt", file_path := "/p",
                       upload_date := "T", file_type := ".txt", file_size := 0,
                       ocr_text := "x", summary_json := jsonDumps [],
                       metadata_json := jsonDumps [] }]) :=
  (delete_document_spec
    [{ id := "d1", filename := "a.txt", file_path := "/p",
       upload_date := "T", file_type := ".txt", file_size := 0,
       ocr_text := "x", summary_json := jsonDumps [],
       metadata_json := jsonDumps [] }] false "missing-id").2.1 (by decide)

/-- Witness for the amended C8 at a concrete save with an absent
`file_type`: the stored file type is the lower-cased extension. -/
theorem save_file_type_amended_witness :
    ∃ rows1 r, (save_document (some []) false "T" "d1" "report.PDF" "/p" "t"
        none 0 none none).2 = some rows1
      ∧ rows1.find? (fun x => x.id == "d1") = some r
      ∧ r.file_type = lowerStr (pathSuffix "report.PDF") := by
  obtain ⟨rows1, r, h1, h2, h3, h4⟩ :=
    save_file_type_amended [] "T" "d1" "report.PDF" "/p" "t" none 0 none none
  exact ⟨rows1, r, h1, h2, h3 (Or.inl rfl)⟩

/-- Witness for C9 at a concrete save with both maps absent. -/
theorem save_absent_maps_witness :
    ∃ rows1 r d,
      (save_document (some []) false "T" "d1" "f" "/p" "t" none 0 none none).2
          = some rows1
      ∧ rows1.find? (fun x => x.id == "d1") = some r
      ∧ get_document_by_id (some rows1) false "d1" = some d
      ∧ r.summary_json = jsonDumps [] ∧ d.summary = []
      ∧ r.metadata_json = jsonDumps [] ∧ d.metadata = [] := by
  obtain ⟨rows1, r, d, h1, h2, h3, h4, h5⟩ :=
    save_absent_maps [] "T" "d1" "f" "/p" "t" none 0 none none
  obtain ⟨h4a, h4b⟩ := h4 rfl
  obtain ⟨h5a, h5b⟩ := h5 rfl
  exact ⟨rows1, r, d, h1, h2, h3, h4a, h4b, h5a, h5b⟩
